import Mathlib

/-!
Verification of the batch acquisition and decoding pipeline
(src/src/data_acquisition/l1_client.py, src/src/data_acquisition/batch_fetcher.py,
src/src/decoding/batch_decoder.py, src/src/main.py).

The Python code is shallowly embedded: the L1 RPC surface is an explicit
oracle parameter (block number, attempt index), the SQLAlchemy session and
its unique constraint on transaction_hash become an explicit list of rows
with an all-or-nothing commit, and exceptions become Except values.
-/

namespace WorldCaseStudy

/-- Python `str.lower()` (per-character lowercase), as used for the
case-insensitive address comparison in `L1Client.get_world_chain_batches`. -/
def pyLower (s : String) : String := ⟨s.data.map Char.toLower⟩

/-- An L1 transaction dict, restricted to the fields the pipeline reads:
`tx.get('type')`, `tx['to']` (which may be null), `tx['hash']`, and
`tx['blobVersionedHashes']` (absent modelled as the empty list, matching
`raw_data.get('blobVersionedHashes', [])`). -/
structure Tx where
  txType : Option Nat
  toAddr : Option String
  hash : String
  blobVersionedHashes : List String
deriving DecidableEq, Repr

/-- A batch dict as built by `L1Client.get_world_chain_batches`:
`{'block_number': ..., 'transaction_hash': ..., 'raw_data': tx}`. -/
structure BatchRec where
  block_number : Nat
  transaction_hash : String
  raw_data : Tx
deriving DecidableEq, Repr

/-- A persisted `BatchSubmission` row (batch_fetcher.py lines 13-21).
The autoincrement id and wall-clock timestamp are not read by any
property under study and are omitted; `processed` is 0 or 1. -/
structure Row where
  block_number : Nat
  transaction_hash : String
  raw_data : Tx
  processed : Nat
deriving DecidableEq, Repr

/-! ## L1Client (src/src/data_acquisition/l1_client.py)

The web3 RPC surface is an oracle.  `w3bn k` is the result the
`eth_blockNumber` call would return on its k-th attempt; `w3 n k` is the
transaction list of block `n` as returned by the k-th attempt of
`eth_getBlockByNumber`.  The attempt index makes it possible to state
whether the code retries: the source performs a single call, attempt 0. -/

/-- `L1Client.get_latest_block` (lines 15-17): a single `w3.eth.block_number`
call; any transport error propagates to the caller unchanged. -/
def get_latest_block (w3bn : Nat → Except String Nat) : Except String Nat :=
  w3bn 0

/-- `L1Client.get_block` (lines 19-21): a single
`w3.eth.get_block(n, full_transactions=True)` call (attempt 0); any
transport error propagates unchanged. -/
def get_block (w3 : Nat → Nat → Except String (List Tx)) (block_number : Nat) :
    Except String (List Tx) :=
  w3 block_number 0

/-- `L1Client.get_blob_transactions` (lines 23-32): fetch the block and keep
the transactions whose `tx.get('type') == 3` (EIP-4844 marker).  The
function does not catch exceptions itself. -/
def get_blob_transactions (w3 : Nat → Nat → Except String (List Tx))
    (block_number : Nat) : Except String (List Tx) :=
  match get_block w3 block_number with
  | .error e => .error e
  | .ok txs => .ok (txs.filter (fun tx => tx.txType == some 3))

/-- The per-transaction body of the loop in `get_world_chain_batches`
(lines 43-49): `if tx['to'] and tx['to'].lower() == WORLD_CHAIN_ADDRESS.lower()`
append the batch dict.  Python truthiness: a null or empty `to` fails the
condition. -/
def tx_record (addr : String) (block_num : Nat) (tx : Tx) : Option BatchRec :=
  match tx.toAddr with
  | none => none
  | some toA =>
      if toA ≠ "" ∧ pyLower toA = pyLower addr then
        some ⟨block_num, tx.hash, tx⟩
      else none

/-- The block loop of `get_world_chain_batches` (lines 40-52): the body of
each iteration is wrapped in try/except; an error on one block is logged
and the loop continues with the accumulated `batches` unchanged. -/
def gwcbLoop (addr : String) (w3 : Nat → Nat → Except String (List Tx)) :
    List Nat → List BatchRec → List BatchRec
  | [], batches => batches
  | block_num :: rest, batches =>
    match get_blob_transactions w3 block_num with
    | .error _ => gwcbLoop addr w3 rest batches
    | .ok blob_txs =>
        gwcbLoop addr w3 rest (batches ++ blob_txs.filterMap (tx_record addr block_num))

/-- `range(start_block, end_block + 1)` as a list of block numbers. -/
def blockList (start_block end_block : Nat) : List Nat :=
  (List.range (end_block + 1 - start_block)).map (· + start_block)

/-- `L1Client.get_world_chain_batches` (lines 34-54) with the end block
already resolved. -/
def get_world_chain_batches (addr : String)
    (w3 : Nat → Nat → Except String (List Tx))
    (start_block end_block : Nat) : List BatchRec :=
  gwcbLoop addr w3 (blockList start_block end_block) []

/-! ## BatchFetcher (src/src/data_acquisition/batch_fetcher.py) -/

/-- `BATCH_SIZE` from config/settings.py line 15. -/
def BATCH_SIZE : Nat := 100

/-- The row built from one batch dict by the loop in `fetch_batches`
(lines 47-53): a fresh `BatchSubmission` with `processed = 0`. -/
def toRow (b : BatchRec) : Row :=
  ⟨b.block_number, b.transaction_hash, b.raw_data, 0⟩

/-- One `session.add`-all-then-`session.commit` of a window's rows.  The
`batch_submissions` table has a unique constraint on `transaction_hash`
(line 18), so the commit succeeds (appending every pending row) only when
the pending hashes are pairwise distinct and none is already stored;
otherwise the commit raises IntegrityError and inserts nothing. -/
def commitRows (store pending : List Row) : Option (List Row) :=
  if (pending.map (·.transaction_hash)).Nodup ∧
      ∀ r ∈ pending, r.transaction_hash ∉ store.map (·.transaction_hash)
  then some (store ++ pending) else none

/-- The store contents after the commit attempt: the committed rows on
success, the unchanged store after the `session.rollback()` of the except
branch on failure. -/
def commitResult (store pending : List Row) : List Row :=
  (commitRows store pending).getD store

/-- The `while current_block <= end_block` loop of
`BatchFetcher.fetch_batches` (lines 39-63).  Each iteration fetches one
window via `get_world_chain_batches`, adds all its rows and commits; on
success `current_block = batch_end + 1`, on any exception the session is
rolled back and `current_block += BATCH_SIZE`.  The loop advances
`current_block` by at least 1 per iteration, so `end_block + 1 - start`
units of fuel are enough for the fuel branch never to be taken. -/
def fetch_loop (addr : String) (w3 : Nat → Nat → Except String (List Tx))
    (end_block : Nat) : Nat → Nat → List Row → List Row
  | 0, _, store => store
  | fuel + 1, current_block, store =>
    if current_block ≤ end_block then
      match commitRows store
          ((get_world_chain_batches addr w3 current_block
            (min (current_block + BATCH_SIZE - 1) end_block)).map toRow) with
      | some store' =>
          fetch_loop addr w3 end_block fuel
            (min (current_block + BATCH_SIZE - 1) end_block + 1) store'
      | none => fetch_loop addr w3 end_block fuel (current_block + BATCH_SIZE) store
    else store

/-- `BatchFetcher.fetch_batches` (lines 34-63) with the end block resolved,
acting on an explicit store. -/
def fetch_batches (addr : String) (w3 : Nat → Nat → Except String (List Tx))
    (start_block end_block : Nat) (store : List Row) : List Row :=
  fetch_loop addr w3 end_block (end_block + 1 - start_block) start_block store

/-- `BatchFetcher.get_unprocessed_batches` (lines 65-67):
`query(BatchSubmission).filter_by(processed=0).all()` with no order_by;
rows come back in insertion (rowid) order. -/
def get_unprocessed_batches (store : List Row) : List Row :=
  store.filter (fun r => r.processed == 0)

/-! ## BatchDecoder (src/src/decoding/batch_decoder.py) -/

/-- Raw blob bytes: a list of byte values. -/
abbrev Bytes := List Nat

/-- The tree of byte-strings and nested sequences produced by RLP
decoding (the return shape of the third-party `rlp.decode`). -/
inductive RlpItem where
  | str : Bytes → RlpItem
  | list : List RlpItem → RlpItem

/-- Big-endian interpretation of a byte string (RLP long-length field). -/
def beNat (bs : Bytes) : Nat := bs.foldl (fun acc b => acc * 256 + b) 0

/-- Decoder for a sequence of consecutive RLP items, modelling the
third-party `rlp` package (recursive length-prefixed decoding with
canonicity checks).  The fuel argument bounds the recursion; every
recursive call is on a strictly shorter suffix of the input, so
`length + 1` units of fuel always suffice. -/
def rlpDecSeq : Nat → Bytes → Except String (List RlpItem)
  | _, [] => .ok []
  | 0, _ :: _ => .error "RLP: recursion limit exceeded"
  | fuel + 1, b :: rest =>
    if b ≤ 0x7f then
      (rlpDecSeq fuel rest).map (RlpItem.str [b] :: ·)
    else if b ≤ 0xb7 then
      let len := b - 0x80
      if rest.length < len then .error "RLP: truncated string"
      else if len = 1 ∧ rest.headD 0 ≤ 0x7f then
        .error "RLP: non-canonical single byte"
      else (rlpDecSeq fuel (rest.drop len)).map (RlpItem.str (rest.take len) :: ·)
    else if b ≤ 0xbf then
      let ll := b - 0xb7
      if rest.length < ll then .error "RLP: truncated length of length"
      else
        let len := beNat (rest.take ll)
        let body := rest.drop ll
        if len < 56 then .error "RLP: non-canonical long string"
        else if body.length < len then .error "RLP: truncated string"
        else (rlpDecSeq fuel (body.drop len)).map (RlpItem.str (body.take len) :: ·)
    else if b ≤ 0xf7 then
      let len := b - 0xc0
      if rest.length < len then .error "RLP: truncated list"
      else
        match rlpDecSeq fuel (rest.take len) with
        | .error e => .error e
        | .ok inner => (rlpDecSeq fuel (rest.drop len)).map (RlpItem.list inner :: ·)
    else
      let ll := b - 0xf7
      if rest.length < ll then .error "RLP: truncated length of length"
      else
        let len := beNat (rest.take ll)
        let body := rest.drop ll
        if len < 56 then .error "RLP: non-canonical long list"
        else if body.length < len then .error "RLP: truncated list"
        else
          match rlpDecSeq fuel (body.take len) with
          | .error e => .error e
          | .ok inner => (rlpDecSeq fuel (body.drop len)).map (RlpItem.list inner :: ·)

/-- `BatchDecoder.decode_rlp` (lines 13-19): `rlp.decode(data)` returns a
single top-level item and rejects empty or trailing input; decoding errors
propagate to the caller (logged and re-raised). -/
def decode_rlp (data : Bytes) : Except String RlpItem :=
  match rlpDecSeq (data.length + 1) data with
  | .error e => .error e
  | .ok [item] => .ok item
  | .ok _ => .error "RLP: expected a single item"

/-- One lowercase hex digit. -/
def hexDigit (n : Nat) : Char :=
  if n < 10 then Char.ofNat (48 + n) else Char.ofNat (87 + n)

/-- `eth_utils.to_hex` on a byte string: `0x` followed by two digits per
byte. -/
def toHexBytes (bs : Bytes) : String :=
  ⟨'0' :: 'x' :: bs.flatMap (fun b => [hexDigit (b / 16 % 16), hexDigit (b % 16)])⟩

/-- `eth_utils.to_hex` on an int (a byte yielded by iterating a Python
bytes object). -/
def toHexNat (n : Nat) : String :=
  ⟨'0' :: 'x' :: Nat.toDigits 16 n⟩

/-- `[to_hex(item) for item in decoded]` when `decoded` is an RLP list:
each element must be a byte-string, a nested list makes `to_hex` raise a
TypeError, which `_decode_blob` re-raises. -/
def hexItems : List RlpItem → Except String (List String)
  | [] => .ok []
  | .str bs :: rest => (hexItems rest).map (toHexBytes bs :: ·)
  | .list _ :: _ => .error "TypeError: to_hex on a list"

/-- The dict built by `BatchDecoder._decode_blob` on success. -/
structure DecodedBlob where
  raw_data : String
  decoded_data : List String
  size : Nat
deriving DecidableEq, Repr

/-- A decoded batch dict as built by `BatchDecoder.decode_batch`
(lines 29-33): block number, transaction hash and the list of decoded
blobs. -/
structure DecodedBatch where
  block_number : Nat
  transaction_hash : String
  blobs : List DecodedBlob
deriving DecidableEq, Repr

/-- `BatchDecoder._fetch_blob_content` (lines 49-56): the placeholder
always returns `b''`. -/
def fetch_blob_content (_blob_hash : String) : Bytes := []

/-- `BatchDecoder._decode_blob` (lines 58-77): RLP-decode the content and
render it; any decoding error is logged and re-raised. -/
def decode_blob (blob_content : Bytes) : Except String DecodedBlob :=
  match decode_rlp blob_content with
  | .error e => .error e
  | .ok (.str bs) =>
      .ok ⟨toHexBytes blob_content, bs.map toHexNat, blob_content.length⟩
  | .ok (.list items) =>
      match hexItems items with
      | .error e => .error e
      | .ok dd => .ok ⟨toHexBytes blob_content, dd, blob_content.length⟩

/-- The `for blob_hash in blob_data` loop of `decode_batch` (lines 35-41):
fetch the content, and only `if blob_content:` (non-empty bytes) decode it
and append; an error from `_decode_blob` aborts the whole decode. -/
def decodeBlobsLoop : List String → List DecodedBlob → Except String (List DecodedBlob)
  | [], acc => .ok acc
  | blob_hash :: rest, acc =>
    let blob_content := fetch_blob_content blob_hash
    if blob_content.length ≠ 0 then
      match decode_blob blob_content with
      | .error e => .error e
      | .ok d => decodeBlobsLoop rest (acc ++ [d])
    else decodeBlobsLoop rest acc

/-- `BatchDecoder.decode_batch` (lines 21-47): raise when the transaction
carries no blob data (`blobVersionedHashes` empty or absent), otherwise
build the decoded batch from the fetched blob contents.  Every exception
is re-raised to the caller. -/
def decode_batch (batch_data : BatchRec) : Except String DecodedBatch :=
  let blob_data := batch_data.raw_data.blobVersionedHashes
  if blob_data.isEmpty then .error "No blob data found in transaction"
  else
    match decodeBlobsLoop blob_data [] with
    | .error e => .error e
    | .ok blobs =>
        .ok ⟨batch_data.block_number, batch_data.transaction_hash, blobs⟩

/-- `BatchDecoder.extract_l2_transactions` (lines 79-91): the loop body is
`pass`, so the accumulated `transactions` list is returned as built. -/
def extract_l2_transactions (decoded_batch : DecodedBatch) : List String :=
  decoded_batch.blobs.foldl (fun transactions _blob => transactions) []

/-! ## The per-record processing loop of main (src/src/main.py lines 54-83)

Each unprocessed row is processed inside try/except: a failure on one row
is logged and the loop continues with the next row.  The loop body
(decode, metrics, modification, mark processed) is abstracted as the
fallible `dec` step; on success the decoded batch is collected and the
row's hash is marked processed, on failure nothing of the row survives. -/
def mainLoop (dec : Row → Except String DecodedBatch) :
    List Row → List DecodedBatch × List String
  | [] => ([], [])
  | row :: rest =>
    match dec row with
    | .ok d =>
        let (ds, ps) := mainLoop dec rest
        (d :: ds, row.transaction_hash :: ps)
    | .error _ => mainLoop dec rest

/-! ## Helper lemmas about the scanner -/

/-- The records contributed by one block inside `get_world_chain_batches`:
nothing when fetching the block fails (the per-block except branch),
otherwise the filtered transactions of the block. -/
def blockRecs (addr : String) (w3 : Nat → Nat → Except String (List Tx))
    (n : Nat) : List BatchRec :=
  match get_blob_transactions w3 n with
  | .error _ => []
  | .ok blob_txs => blob_txs.filterMap (tx_record addr n)

lemma gwcbLoop_eq_flatMap (addr : String) (w3 : Nat → Nat → Except String (List Tx)) :
    ∀ (ns : List Nat) (acc : List BatchRec),
      gwcbLoop addr w3 ns acc = acc ++ ns.flatMap (blockRecs addr w3) := by
  intro ns
  induction ns with
  | nil => intro acc; simp [gwcbLoop]
  | cons n rest ih =>
      intro acc
      cases h : get_blob_transactions w3 n with
      | error e =>
          simp [gwcbLoop, h, ih, blockRecs, List.flatMap_cons]
      | ok blob_txs =>
          simp [gwcbLoop, h, ih, blockRecs, List.flatMap_cons, List.append_assoc]

lemma get_world_chain_batches_eq (addr : String)
    (w3 : Nat → Nat → Except String (List Tx)) (s e : Nat) :
    get_world_chain_batches addr w3 s e =
      (blockList s e).flatMap (blockRecs addr w3) := by
  unfold get_world_chain_batches
  rw [gwcbLoop_eq_flatMap]
  exact List.nil_append _

lemma tx_record_eq_some {addr : String} {n : Nat} {tx : Tx} {r : BatchRec} :
    tx_record addr n tx = some r ↔
      ∃ s, tx.toAddr = some s ∧ s ≠ "" ∧ pyLower s = pyLower addr ∧
        r = ⟨n, tx.hash, tx⟩ := by
  constructor
  · intro h
    cases htx : tx.toAddr with
    | none =>
        simp only [tx_record, htx] at h
        exact Option.noConfusion h
    | some s =>
        simp only [tx_record, htx] at h
        by_cases hc : s ≠ "" ∧ pyLower s = pyLower addr
        · rw [if_pos hc] at h
          exact ⟨s, rfl, hc.1, hc.2, (Option.some.inj h).symm⟩
        · rw [if_neg hc] at h; exact Option.noConfusion h
  · rintro ⟨s, hs, hne, hl, rfl⟩
    simp only [tx_record, hs]
    rw [if_pos ⟨hne, hl⟩]

lemma pyLower_eq_empty {s : String} (h : pyLower s = "") : s = "" := by
  cases s with
  | mk data =>
      cases data with
      | nil => rfl
      | cons c cs =>
          have hd := congrArg String.data h
          simp [pyLower] at hd

lemma pyLower_ne_empty {s addr : String} (h : pyLower s = pyLower addr)
    (ha : addr ≠ "") : s ≠ "" := by
  intro hs
  subst hs
  have h0 : pyLower addr = "" := h.symm.trans rfl
  exact ha (pyLower_eq_empty h0)

lemma blockRecs_error {addr : String} {w3 : Nat → Nat → Except String (List Tx)}
    {n : Nat} {e : String} (h : get_block w3 n = .error e) :
    blockRecs addr w3 n = [] := by
  unfold blockRecs get_blob_transactions
  rw [h]

lemma mem_blockRecs_ok {addr : String} {w3 : Nat → Nat → Except String (List Tx)}
    {n : Nat} {txs : List Tx} {r : BatchRec} (h : get_block w3 n = .ok txs) :
    r ∈ blockRecs addr w3 n ↔
      ∃ tx ∈ txs, tx.txType = some 3 ∧ tx_record addr n tx = some r := by
  unfold blockRecs get_blob_transactions
  rw [h]
  simp [List.mem_filterMap, List.mem_filter, and_assoc]

lemma block_number_of_mem_blockRecs {addr : String}
    {w3 : Nat → Nat → Except String (List Tx)} {n : Nat} {r : BatchRec}
    (h : r ∈ blockRecs addr w3 n) : r.block_number = n := by
  unfold blockRecs at h
  cases hg : get_blob_transactions w3 n with
  | error e => rw [hg] at h; exact absurd h (List.not_mem_nil _)
  | ok txs =>
      rw [hg] at h
      rcases List.mem_filterMap.mp h with ⟨tx, _, htx⟩
      rcases tx_record_eq_some.mp htx with ⟨s, _, _, _, rfl⟩
      rfl

lemma mem_blockList {s e n : Nat} : n ∈ blockList s e ↔ s ≤ n ∧ n ≤ e := by
  simp only [blockList, List.mem_map, List.mem_range]
  constructor
  · rintro ⟨k, hk, rfl⟩; omega
  · rintro ⟨h1, h2⟩; exact ⟨n - s, by omega, by omega⟩

lemma blockList_pairwise (s e : Nat) : (blockList s e).Pairwise (· ≤ ·) := by
  unfold blockList
  rw [List.pairwise_map]
  exact (List.pairwise_lt_range _).imp (fun h => by omega)

lemma mem_gwcb {addr : String} {w3 : Nat → Nat → Except String (List Tx)}
    {s e : Nat} {r : BatchRec} :
    r ∈ get_world_chain_batches addr w3 s e ↔
      ∃ n, (s ≤ n ∧ n ≤ e) ∧ r ∈ blockRecs addr w3 n := by
  rw [get_world_chain_batches_eq]
  simp [List.mem_flatMap, mem_blockList]

lemma gwcb_block_range {addr : String} {w3 : Nat → Nat → Except String (List Tx)}
    {s e : Nat} {r : BatchRec} (h : r ∈ get_world_chain_batches addr w3 s e) :
    s ≤ r.block_number ∧ r.block_number ≤ e := by
  rcases mem_gwcb.mp h with ⟨n, ⟨h1, h2⟩, hr⟩
  have hb := block_number_of_mem_blockRecs hr
  omega

lemma pairwise_bn_const {l : List BatchRec} {n : Nat}
    (h : ∀ r ∈ l, r.block_number = n) :
    l.Pairwise (fun a b => a.block_number ≤ b.block_number) := by
  induction l with
  | nil => exact List.Pairwise.nil
  | cons a t ih =>
      refine List.Pairwise.cons ?_ (ih fun x hx => h x (List.mem_cons_of_mem _ hx))
      intro b hb
      rw [h a (List.mem_cons_self _ _), h b (List.mem_cons_of_mem _ hb)]

lemma blockRecs_flatMap_pairwise (addr : String)
    (w3 : Nat → Nat → Except String (List Tx)) :
    ∀ ns : List Nat, ns.Pairwise (· ≤ ·) →
      (ns.flatMap (blockRecs addr w3)).Pairwise
        (fun a b => a.block_number ≤ b.block_number) := by
  intro ns hns
  induction ns with
  | nil => simp
  | cons n rest ih =>
      rw [List.flatMap_cons, List.pairwise_append]
      rcases List.pairwise_cons.mp hns with ⟨hhead, htail⟩
      refine ⟨pairwise_bn_const (fun r hr => block_number_of_mem_blockRecs hr),
        ih htail, ?_⟩
      intro a ha b hb
      rcases List.mem_flatMap.mp hb with ⟨m, hm, hbm⟩
      have h1 := block_number_of_mem_blockRecs ha
      have h2 := block_number_of_mem_blockRecs hbm
      have h3 := hhead m hm
      omega

lemma gwcb_sorted (addr : String) (w3 : Nat → Nat → Except String (List Tx))
    (s e : Nat) :
    ((get_world_chain_batches addr w3 s e).map (·.block_number)).Pairwise (· ≤ ·) := by
  rw [get_world_chain_batches_eq, List.pairwise_map]
  exact blockRecs_flatMap_pairwise addr w3 _ (blockList_pairwise s e)

/-! ## Helper lemmas about the store loop -/

lemma commitRows_some {store pending store' : List Row}
    (h : commitRows store pending = some store') :
    store' = store ++ pending ∧ (pending.map (·.transaction_hash)).Nodup ∧
      ∀ r ∈ pending, r.transaction_hash ∉ store.map (·.transaction_hash) := by
  unfold commitRows at h
  split_ifs at h with hc
  · exact ⟨(Option.some.inj h).symm, hc.1, hc.2⟩

lemma commitRows_none_iff {store pending : List Row} :
    commitRows store pending = none ↔
      ¬((pending.map (·.transaction_hash)).Nodup ∧
        ∀ r ∈ pending, r.transaction_hash ∉ store.map (·.transaction_hash)) := by
  unfold commitRows
  split_ifs with hc
  · exact iff_of_false (by simp) (not_not_intro hc)
  · exact iff_of_true rfl hc

lemma fetch_loop_mem_mono (addr : String) (w3 : Nat → Nat → Except String (List Tx))
    (e : Nat) :
    ∀ (fuel c : Nat) (store : List Row) (r : Row), r ∈ store →
      r ∈ fetch_loop addr w3 e fuel c store := by
  intro fuel
  induction fuel with
  | zero => intro c store r h; exact h
  | succ f ih =>
      intro c store r h
      rw [fetch_loop]
      by_cases hc : c ≤ e
      · rw [if_pos hc]
        cases hcr : commitRows store
            ((get_world_chain_batches addr w3 c (min (c + BATCH_SIZE - 1) e)).map toRow) with
        | some store' =>
            simp only [hcr]
            obtain ⟨hst, _, _⟩ := commitRows_some hcr
            exact ih _ _ _ (hst ▸ List.mem_append_left _ h)
        | none =>
            simp only [hcr]
            exact ih _ _ _ h
      · rw [if_neg hc]; exact h

lemma fetch_loop_past_end (addr : String) (w3 : Nat → Nat → Except String (List Tx))
    (e fuel c : Nat) (store : List Row) (h : e < c) :
    fetch_loop addr w3 e fuel c store = store := by
  cases fuel with
  | zero => rfl
  | succ f => rw [fetch_loop, if_neg (by omega)]

lemma fetch_loop_idem (addr : String) (w3 : Nat → Nat → Except String (List Tx))
    (e : Nat) :
    ∀ (fuel c : Nat) (store : List Row),
      fetch_loop addr w3 e fuel c (fetch_loop addr w3 e fuel c store) =
        fetch_loop addr w3 e fuel c store := by
  intro fuel
  induction fuel with
  | zero => intro c store; rfl
  | succ f ih =>
      intro c store
      by_cases hc : c ≤ e
      · have hB : BATCH_SIZE = 100 := rfl
        set be := min (c + BATCH_SIZE - 1) e with hbe
        set pend := (get_world_chain_batches addr w3 c be).map toRow with hpend
        cases hcr : commitRows store pend with
        | some store' =>
            obtain ⟨hst, hnd, hnotin⟩ := commitRows_some hcr
            have hinner : fetch_loop addr w3 e (f + 1) c store =
                fetch_loop addr w3 e f (be + 1) store' := by
              rw [fetch_loop, if_pos hc, hcr]
            rw [hinner, fetch_loop, if_pos hc]
            cases hp : pend with
            | nil =>
                have hok : commitRows (fetch_loop addr w3 e f (be + 1) store') pend =
                    some (fetch_loop addr w3 e f (be + 1) store') := by
                  rw [hp]
                  simp [commitRows]
                rw [hok]
                exact ih _ _
            | cons p ps =>
                have hmem : p ∈ store' := by
                  rw [hst, hp]
                  exact List.mem_append_right _ (List.mem_cons_self _ _)
                have hmem' : p ∈ fetch_loop addr w3 e f (be + 1) store' :=
                  fetch_loop_mem_mono addr w3 e f _ _ _ hmem
                have hnone : commitRows (fetch_loop addr w3 e f (be + 1) store') pend =
                    none := by
                  rw [commitRows_none_iff]
                  rintro ⟨_, hall⟩
                  exact hall p (by rw [hp]; exact List.mem_cons_self _ _)
                    (List.mem_map_of_mem _ hmem')
                rw [hnone]
                by_cases hwide : c + BATCH_SIZE - 1 ≤ e
                · have heq : be + 1 = c + BATCH_SIZE := by omega
                  rw [← heq]
                  exact ih _ _
                · have hbee : be = e := by omega
                  have hS : fetch_loop addr w3 e f (be + 1) store' = store' :=
                    fetch_loop_past_end addr w3 e f _ _ (by omega)
                  rw [hS]
                  exact fetch_loop_past_end addr w3 e f _ _ (by omega)
        | none =>
            have hinner : fetch_loop addr w3 e (f + 1) c store =
                fetch_loop addr w3 e f (c + BATCH_SIZE) store := by
              rw [fetch_loop, if_pos hc, hcr]
            rw [hinner, fetch_loop, if_pos hc]
            have hnone2 : commitRows (fetch_loop addr w3 e f (c + BATCH_SIZE) store)
                pend = none := by
              rw [commitRows_none_iff]
              rintro ⟨hnd, hall⟩
              apply commitRows_none_iff.mp hcr
              refine ⟨hnd, ?_⟩
              intro r hr hmemhash
              rcases List.mem_map.mp hmemhash with ⟨row, hrow, hheq⟩
              have hrowS : row ∈ fetch_loop addr w3 e f (c + BATCH_SIZE) store :=
                fetch_loop_mem_mono addr w3 e f _ _ _ hrow
              exact hall r hr (hheq ▸ List.mem_map_of_mem _ hrowS)
            rw [hnone2]
            exact ih _ _
      · have h1 : fetch_loop addr w3 e (f + 1) c store = store := by
          rw [fetch_loop, if_neg hc]
        rw [h1, h1]

lemma fetch_loop_sorted (addr : String) (w3 : Nat → Nat → Except String (List Tx))
    (e : Nat) :
    ∀ (fuel c : Nat) (store : List Row),
      ((store.map (·.block_number)).Pairwise (· ≤ ·)) →
      (∀ r ∈ store, r.block_number < c) →
      ((fetch_loop addr w3 e fuel c store).map (·.block_number)).Pairwise (· ≤ ·) := by
  intro fuel
  induction fuel with
  | zero => intro c store hs _; exact hs
  | succ f ih =>
      intro c store hs hb
      by_cases hc : c ≤ e
      · have hB : BATCH_SIZE = 100 := rfl
        rw [fetch_loop, if_pos hc]
        set be := min (c + BATCH_SIZE - 1) e with hbe
        set pend := (get_world_chain_batches addr w3 c be).map toRow with hpend
        have hcbe : c ≤ be := by omega
        cases hcr : commitRows store pend with
        | some store' =>
            simp only [hcr]
            obtain ⟨hst, _, _⟩ := commitRows_some hcr
            apply ih
            · rw [hst, List.map_append, List.pairwise_append]
              refine ⟨hs, ?_, ?_⟩
              · rw [hpend, List.map_map]
                exact gwcb_sorted addr w3 c be
              · intro a ha b hb'
                rcases List.mem_map.mp ha with ⟨ra, hra, rfl⟩
                rcases List.mem_map.mp hb' with ⟨rb, hrb, rfl⟩
                rw [hpend] at hrb
                rcases List.mem_map.mp hrb with ⟨batch, hbatch, rfl⟩
                have h1 := hb ra hra
                have h2 := (gwcb_block_range hbatch).1
                show ra.block_number ≤ batch.block_number
                omega
            · intro r hr
              rw [hst] at hr
              rcases List.mem_append.mp hr with h | h
              · have := hb r h; omega
              · rw [hpend] at h
                rcases List.mem_map.mp h with ⟨batch, hbatch, rfl⟩
                have h2 := (gwcb_block_range hbatch).2
                show batch.block_number < be + 1
                omega
        | none =>
            simp only [hcr]
            apply ih _ _ hs
            intro r hr
            have := hb r hr
            omega
      · rw [fetch_loop, if_neg hc]; exact hs

/-! ## Helper lemmas about the decoder and the main loop -/

lemma decodeBlobsLoop_ok : ∀ (hs : List String) (acc : List DecodedBlob),
    decodeBlobsLoop hs acc = .ok acc := by
  intro hs
  induction hs with
  | nil => intro acc; rfl
  | cons h t ih =>
      intro acc
      simp [decodeBlobsLoop, fetch_blob_content, ih]

lemma decode_batch_eq (r : BatchRec) :
    decode_batch r =
      if r.raw_data.blobVersionedHashes.isEmpty
      then .error "No blob data found in transaction"
      else .ok ⟨r.block_number, r.transaction_hash, []⟩ := by
  by_cases h : r.raw_data.blobVersionedHashes.isEmpty
  · simp [decode_batch, h]
  · simp [decode_batch, h, decodeBlobsLoop_ok]

lemma foldl_keep {α β : Type} : ∀ (l : List α) (init : β),
    l.foldl (fun acc _ => acc) init = init := by
  intro l
  induction l with
  | nil => intro init; rfl
  | cons a t ih => intro init; rw [List.foldl_cons]; exact ih init

lemma flatMap_eq_on {α β : Type} (f g : α → List β) :
    ∀ l : List α, (∀ x ∈ l, f x = g x) → l.flatMap f = l.flatMap g := by
  intro l
  induction l with
  | nil => intro _; rfl
  | cons a t ih =>
      intro h
      simp only [List.flatMap_cons]
      rw [h a (List.mem_cons_self _ _), ih (fun x hx => h x (List.mem_cons_of_mem _ hx))]

lemma mainLoop_skip (dec : Row → Except String DecodedBatch) (bad : Row)
    (msg : String) (h : dec bad = .error msg) :
    ∀ rows₁ rows₂ : List Row,
      mainLoop dec (rows₁ ++ bad :: rows₂) = mainLoop dec (rows₁ ++ rows₂) := by
  intro rows₁
  induction rows₁ with
  | nil => intro rows₂; simp [mainLoop, h]
  | cons r t ih =>
      intro rows₂
      simp only [List.cons_append, mainLoop]
      cases hd : dec r with
      | ok d => simp only [List.append_eq, ih rows₂]
      | error e => exact ih rows₂

/-! ## Concrete transactions, chains and stores used as inputs -/

def txH1 : Tx := ⟨some 3, some "0xabc", "h1", ["vh1"]⟩

def txH2 : Tx := ⟨some 3, some "0xABC", "h2", ["vh2"]⟩

def txH3 : Tx := ⟨some 3, some "0xabc", "h3", ["vh3"]⟩

/-- A chain in which blocks 150, 160 and 250 each hold one matching blob
transaction, every other block is empty, and every block fetch succeeds. -/
def w3C1 : Nat → Nat → Except String (List Tx) := fun n _ =>
  if n = 150 then .ok [txH1] else if n = 160 then .ok [txH2]
  else if n = 250 then .ok [txH3] else .ok []

/-- A store left by an earlier run: the record of block 150 is already
present, so the first window's commit hits the unique constraint. -/
def storeC1 : List Row := [⟨150, "h1", txH1, 0⟩]

def rW : Row := ⟨150, "h1", txH1, 0⟩

def txW : Tx := ⟨some 3, some "0xabc", "hW", ["vh"]⟩

def w3W : Nat → Nat → Except String (List Tx) := fun n _ =>
  if n = 5 then .ok [txW] else .ok []

def recNoBlob : BatchRec := ⟨9, "hx", ⟨some 3, some "0xabc", "hx", []⟩⟩

def recOneBlob : BatchRec := ⟨7, "hy", ⟨some 3, some "0xabc", "hy", ["v"]⟩⟩

/-- The latest-block RPC fails with a transport error on attempt 0 and
would succeed on attempt 1. -/
def bnCE : Nat → Except String Nat := fun k =>
  if k = 0 then .error "timeout" else .ok 42

/-- The block RPC fails with a transport error on attempt 0 and would
succeed on attempt 1, for every block. -/
def w3CE : Nat → Nat → Except String (List Tx) := fun _ k =>
  if k = 0 then .error "timeout" else .ok []

def txBB : Tx := ⟨some 3, some "0xw", "0xbb", ["v1"]⟩

def txAA : Tx := ⟨some 3, some "0xw", "0xaa", ["v2"]⟩

/-- Block 100 lists its two matching transactions in the order bb, aa:
chain order, not hash order. -/
def w3C7 : Nat → Nat → Except String (List Tx) := fun n _ =>
  if n = 100 then .ok [txBB, txAA] else .ok []

def storeC7 : List Row := fetch_batches "0xW" w3C7 100 100 []

/-- Byte-wise lexicographic comparison of strings. -/
def strLtChars : List Char → List Char → Bool
  | [], [] => false
  | [], _ :: _ => true
  | _ :: _, [] => false
  | a :: as, b :: bs =>
    if a.toNat < b.toNat then true
    else if a.toNat = b.toNat then strLtChars as bs else false

/-- The ordering claimed for pending records: `block_number` ascending,
ties broken by `tx_hash`. -/
def pendingOrder (a b : Row) : Prop :=
  a.block_number < b.block_number ∨
    (a.block_number = b.block_number ∧
      (strLtChars a.transaction_hash.data b.transaction_hash.data ∨
        a.transaction_hash = b.transaction_hash))

def badRow : Row := ⟨1, "bad", txH1, 0⟩

def goodRow : Row := ⟨2, "good", ⟨some 3, some "0xabc", "good", ["v"]⟩, 0⟩

/-- A decode step that fails exactly on `badRow`. -/
def decW : Row → Except String DecodedBatch := fun row =>
  if row.transaction_hash = "bad" then .error "decode failure"
  else .ok ⟨row.block_number, row.transaction_hash, []⟩

/-- Block 2 fails to fetch; blocks 1 and 3 are empty. -/
def w3C8 : Nat → Nat → Except String (List Tx) := fun n _ =>
  if n = 2 then .error "boom" else .ok []

/-! ## The claims -/

set_option maxRecDepth 100000

/-- C1: the claim says the scan pointer is never advanced past a window
whose scanning or storing failed, so no block of the requested range is
skipped without being scanned cleanly.  The code does the opposite: on any
exception `fetch_batches` rolls back and advances `current_block` by a full
`BATCH_SIZE`.  Concretely, over the requested range [100, 299] block 160
scans cleanly and yields record h2, but the first window's commit fails on
the pre-existing h1, the pointer jumps from 100 to 200, and the final
store ends without h2 — the window was skipped, never retried. -/
theorem C1_failed_window_is_skipped :
    (get_world_chain_batches "0xAbC" w3C1 160 160).map (·.transaction_hash) = ["h2"] ∧
    (fetch_batches "0xAbC" w3C1 100 299 storeC1).map (·.transaction_hash) = ["h1", "h3"] ∧
    "h2" ∉ (fetch_batches "0xAbC" w3C1 100 299 storeC1).map (·.transaction_hash) := by
  refine ⟨by decide, by decide, by decide⟩

/-- C2: storing is idempotent on the transaction hash.  Committing a
window that contains an already-stored hash leaves the store unchanged
(the unique constraint fails the transaction and the rollback drops it),
the store never acquires duplicate hashes, and running `fetch_batches`
twice over the same range produces the same store contents as running it
once. -/
theorem C2_store_idempotent :
    (∀ (store pending : List Row) (r : Row),
        r ∈ pending → r.transaction_hash ∈ store.map (·.transaction_hash) →
        commitResult store pending = store) ∧
    (∀ store pending : List Row,
        (store.map (·.transaction_hash)).Nodup →
        ((commitResult store pending).map (·.transaction_hash)).Nodup) ∧
    (∀ (addr : String) (w3 : Nat → Nat → Except String (List Tx))
        (start_block end_block : Nat) (store : List Row),
        fetch_batches addr w3 start_block end_block
            (fetch_batches addr w3 start_block end_block store) =
          fetch_batches addr w3 start_block end_block store) := by
  refine ⟨?_, ?_, ?_⟩
  · intro store pending r hr hhash
    unfold commitResult
    have hnone : commitRows store pending = none := by
      rw [commitRows_none_iff]
      rintro ⟨_, hall⟩
      exact hall r hr hhash
    rw [hnone]
    rfl
  · intro store pending hnd
    unfold commitResult
    cases hcr : commitRows store pending with
    | none => exact hnd
    | some store' =>
        obtain ⟨hst, hpnd, hnotin⟩ := commitRows_some hcr
        subst hst
        simp only [Option.getD_some]
        rw [List.map_append, List.nodup_append]
        refine ⟨hnd, hpnd, ?_⟩
        intro a ha hb
        rcases List.mem_map.mp hb with ⟨r, hrp, rfl⟩
        exact hnotin r hrp ha
  · intro addr w3 s e store
    unfold fetch_batches
    exact fetch_loop_idem addr w3 e _ _ _

/-- Witness for C2 at concrete inputs. -/
theorem C2_store_idempotent_witness :
    commitResult [rW] [rW] = [rW] ∧
    ((commitResult [rW] [rW]).map (·.transaction_hash)).Nodup ∧
    fetch_batches "0xAbC" w3C1 100 100 (fetch_batches "0xAbC" w3C1 100 100 []) =
      fetch_batches "0xAbC" w3C1 100 100 [] :=
  ⟨C2_store_idempotent.1 [rW] [rW] rW (List.mem_singleton.mpr rfl) (by decide),
   C2_store_idempotent.2.1 [rW] [rW] (by decide),
   C2_store_idempotent.2.2 "0xAbC" w3C1 100 100 []⟩

/-- C3: for every block whose fetch succeeds and every nonempty configured
rollup address, a transaction yields a stored batch record if and only if
its type is the EIP-4844 marker 3 and its destination address equals the
configured address case-insensitively; in particular a blob-type
transaction with a non-matching (or missing) destination yields nothing. -/
theorem C3_record_iff_blob_type_and_address (addr : String)
    (w3 : Nat → Nat → Except String (List Tx)) (n : Nat) (txs : List Tx)
    (r : BatchRec) (haddr : addr ≠ "") (hblk : get_block w3 n = .ok txs) :
    r ∈ get_world_chain_batches addr w3 n n ↔
      r.block_number = n ∧ r.raw_data ∈ txs ∧
        r.transaction_hash = r.raw_data.hash ∧
        r.raw_data.txType = some 3 ∧
        ∃ toA, r.raw_data.toAddr = some toA ∧ pyLower toA = pyLower addr := by
  rw [mem_gwcb]
  constructor
  · rintro ⟨m, ⟨h1, h2⟩, hr⟩
    have hm : m = n := by omega
    subst hm
    rcases (mem_blockRecs_ok hblk).mp hr with ⟨tx, htx, htype, hrec⟩
    rcases tx_record_eq_some.mp hrec with ⟨s, hs, hne, hl, rfl⟩
    exact ⟨rfl, htx, rfl, htype, s, hs, hl⟩
  · rintro ⟨hbn, htxmem, hhash, htype, toA, htoA, hl⟩
    refine ⟨n, ⟨le_refl n, le_refl n⟩, ?_⟩
    rw [mem_blockRecs_ok hblk]
    refine ⟨r.raw_data, htxmem, htype, ?_⟩
    rw [tx_record_eq_some]
    refine ⟨toA, htoA, pyLower_ne_empty hl haddr, hl, ?_⟩
    rcases r with ⟨bn, th, rd⟩
    simp only at hbn hhash
    rw [hbn, hhash]

/-- Witness for C3 at a concrete block and transaction. -/
theorem C3_record_iff_blob_type_and_address_witness :
    (⟨5, "hW", txW⟩ : BatchRec) ∈ get_world_chain_batches "0xAbC" w3W 5 5 :=
  (C3_record_iff_blob_type_and_address "0xAbC" w3W 5 [txW] ⟨5, "hW", txW⟩
      (by decide) rfl).mpr
    ⟨rfl, List.mem_singleton.mpr rfl, rfl, rfl, "0xabc", rfl, by decide⟩

/-- C4: decoding fails with an error when the record carries no blob data
(`blobVersionedHashes` empty — the code's notion of absent blob bytes),
and an RLP decoding error inside `_decode_blob` propagates as an error; a
successful decode always returns a complete batch whose block number and
transaction hash are the input record's — never a partial value. -/
theorem C4_decode_complete_or_error :
    (∀ r : BatchRec, r.raw_data.blobVersionedHashes = [] →
        decode_batch r = .error "No blob data found in transaction") ∧
    (∀ (r : BatchRec) (d : DecodedBatch), decode_batch r = .ok d →
        d.block_number = r.block_number ∧ d.transaction_hash = r.transaction_hash) ∧
    (∀ (blob_content : Bytes) (msg : String),
        decode_rlp blob_content = .error msg →
        decode_blob blob_content = .error msg) := by
  refine ⟨?_, ?_, ?_⟩
  · intro r h
    simp [decode_batch, h]
  · intro r d h
    rw [decode_batch_eq] at h
    split_ifs at h with hcond
    have hd := Except.ok.inj h
    rw [← hd]
    exact ⟨rfl, rfl⟩
  · intro bc msg h
    unfold decode_blob
    rw [h]

/-- Witness for C4 at concrete records and bytes. -/
theorem C4_decode_complete_or_error_witness :
    decode_batch recNoBlob = Except.error "No blob data found in transaction" ∧
    ((⟨7, "hy", ([] : List DecodedBlob)⟩ : DecodedBatch).block_number =
        recOneBlob.block_number ∧
      (⟨7, "hy", ([] : List DecodedBlob)⟩ : DecodedBatch).transaction_hash =
        recOneBlob.transaction_hash) ∧
    decode_blob [184] = Except.error "RLP: truncated length of length" :=
  ⟨C4_decode_complete_or_error.1 recNoBlob rfl,
   C4_decode_complete_or_error.2.1 recOneBlob ⟨7, "hy", []⟩ rfl,
   C4_decode_complete_or_error.2.2 [184] "RLP: truncated length of length" rfl⟩

/-- C5: decoding is deterministic — it is a pure function of the record's
fields (no clock, no unstable iteration), so any two records with the same
block number, transaction hash and raw transaction decode identically. -/
theorem C5_decode_deterministic (r₁ r₂ : BatchRec)
    (hbn : r₁.block_number = r₂.block_number)
    (hth : r₁.transaction_hash = r₂.transaction_hash)
    (hrd : r₁.raw_data = r₂.raw_data) :
    decode_batch r₁ = decode_batch r₂ := by
  rcases r₁ with ⟨a1, b1, c1⟩
  rcases r₂ with ⟨a2, b2, c2⟩
  obtain rfl : a1 = a2 := hbn
  obtain rfl : b1 = b2 := hth
  obtain rfl : c1 = c2 := hrd
  rfl

/-- Witness for C5: two syntactically different spellings of the same
record decode identically. -/
theorem C5_decode_deterministic_witness :
    decode_batch ⟨7, "hy", ⟨some 3, some "0xabc", "hy", ["v"]⟩⟩ =
      decode_batch ⟨6 + 1, "h" ++ "y", ⟨some 3, some "0xabc", "hy", ["v"]⟩⟩ :=
  C5_decode_deterministic _ _ (by decide) (by decide) rfl

/-- C6 counterexample: `get_latest_block` and `get_block` perform a single
RPC attempt; on a transient transport failure (attempt 0 fails, attempt 1
would succeed) the raw transport error propagates to the caller — there is
no retry, no backoff, and no RpcUnavailable conversion, contradicting the
claim that every chain-reader call retries and fails with RpcUnavailable. -/
theorem C6_retry_counterexample :
    bnCE 0 = Except.error "timeout" ∧ bnCE 1 = Except.ok 42 ∧
    get_latest_block bnCE = Except.error "timeout" ∧
    w3CE 7 0 = Except.error "timeout" ∧ w3CE 7 1 = Except.ok [] ∧
    get_block w3CE 7 = Except.error "timeout" :=
  ⟨rfl, rfl, rfl, rfl, rfl, rfl⟩

/-- C6 amended: each chain-reader call makes exactly one RPC attempt
(attempt 0) — its result depends only on that attempt — and a transport
error on that attempt propagates to the caller unchanged; no retry,
backoff, or RpcUnavailable wrapping exists. -/
theorem C6_single_attempt_raw_propagation :
    (∀ a₁ a₂ : Nat → Except String Nat, a₁ 0 = a₂ 0 →
        get_latest_block a₁ = get_latest_block a₂) ∧
    (∀ (w₁ w₂ : Nat → Nat → Except String (List Tx)) (n : Nat), w₁ n 0 = w₂ n 0 →
        get_block w₁ n = get_block w₂ n) ∧
    (∀ (a : Nat → Except String Nat) (msg : String), a 0 = .error msg →
        get_latest_block a = .error msg) ∧
    (∀ (w : Nat → Nat → Except String (List Tx)) (n : Nat) (msg : String),
        w n 0 = .error msg → get_block w n = .error msg) :=
  ⟨fun _ _ h => h, fun _ _ _ h => h, fun _ _ h => h, fun _ _ _ h => h⟩

/-- Witness for the amended C6 at concrete oracles. -/
theorem C6_single_attempt_raw_propagation_witness :
    get_latest_block bnCE =
      get_latest_block (fun k => if k = 0 then .error "timeout" else .ok 99) ∧
    get_latest_block bnCE = Except.error "timeout" :=
  ⟨C6_single_attempt_raw_propagation.1 bnCE
      (fun k => if k = 0 then .error "timeout" else .ok 99) rfl,
   C6_single_attempt_raw_propagation.2.2.1 bnCE "timeout" rfl⟩

/-- C7 counterexample: the claim says pending records come back ordered by
block number then tx_hash.  `get_unprocessed_batches` does no ordering:
after fetching block 100, whose transactions arrive in chain order bb, aa,
the pending sequence has equal block numbers with hashes out of order. -/
theorem C7_pending_order_counterexample :
    (get_unprocessed_batches storeC7).map
        (fun r => (r.block_number, r.transaction_hash)) =
      [(100, "0xbb"), (100, "0xaa")] ∧
    ¬ List.Pairwise pendingOrder (get_unprocessed_batches storeC7) := by
  have hl : get_unprocessed_batches storeC7 =
      [⟨100, "0xbb", txBB, 0⟩, ⟨100, "0xaa", txAA, 0⟩] := by decide
  refine ⟨by decide, ?_⟩
  rw [hl]
  intro hp
  rcases List.pairwise_cons.mp hp with ⟨hhead, _⟩
  have hord := hhead _ (List.mem_singleton.mpr rfl)
  exact absurd hord (by unfold pendingOrder; decide)

/-- C7 amended: `get_unprocessed_batches` returns exactly the rows with
`processed = 0`, in store insertion order (a sublist of the store); for a
store produced by a single `fetch_batches` run over an empty store that
order is ascending in `block_number`, but within a block records keep the
block's transaction order, not tx_hash order. -/
theorem C7_pending_insertion_order :
    (∀ (store : List Row) (r : Row),
        r ∈ get_unprocessed_batches store ↔ r ∈ store ∧ r.processed = 0) ∧
    (∀ store : List Row, (get_unprocessed_batches store).Sublist store) ∧
    (∀ (addr : String) (w3 : Nat → Nat → Except String (List Tx)) (s e : Nat),
        ((get_unprocessed_batches (fetch_batches addr w3 s e [])).map
          (·.block_number)).Pairwise (· ≤ ·)) := by
  refine ⟨?_, ?_, ?_⟩
  · intro store r
    simp [get_unprocessed_batches, List.mem_filter]
  · intro store
    exact List.filter_sublist _
  · intro addr w3 s e
    have hs := fetch_loop_sorted addr w3 e (e + 1 - s) s []
      (by simp) (by intro r hr; exact absurd hr (List.not_mem_nil _))
    unfold fetch_batches get_unprocessed_batches
    exact List.Pairwise.sublist (List.Sublist.map _ (List.filter_sublist _)) hs

/-- C8: errors are isolated per block and per record.  A block whose fetch
fails contributes nothing and leaves every other block's records intact
(the scan behaves as if the failing block were empty), and a record whose
processing fails in the main loop is simply skipped — the remaining
records are processed exactly as without it. -/
theorem C8_per_block_and_per_record_isolation :
    (∀ (addr : String) (w3 : Nat → Nat → Except String (List Tx))
        (s e b : Nat) (msg : String), get_block w3 b = .error msg →
        get_world_chain_batches addr w3 s e =
          get_world_chain_batches addr
            (fun m k => if m = b then .ok [] else w3 m k) s e) ∧
    (∀ (dec : Row → Except String DecodedBatch) (bad : Row) (msg : String)
        (rows₁ rows₂ : List Row), dec bad = .error msg →
        mainLoop dec (rows₁ ++ bad :: rows₂) = mainLoop dec (rows₁ ++ rows₂)) := by
  constructor
  · intro addr w3 s e b msg h
    rw [get_world_chain_batches_eq, get_world_chain_batches_eq]
    apply flatMap_eq_on
    intro n hn
    by_cases hnb : n = b
    · subst hnb
      rw [blockRecs_error h]
      unfold blockRecs get_blob_transactions get_block
      simp
    · unfold blockRecs get_blob_transactions get_block
      simp [hnb]
  · intro dec bad msg rows₁ rows₂ h
    exact mainLoop_skip dec bad msg h rows₁ rows₂

/-- Witness for C8 at a concrete failing block and failing record. -/
theorem C8_per_block_and_per_record_isolation_witness :
    get_world_chain_batches "0xa" w3C8 1 3 =
      get_world_chain_batches "0xa"
        (fun m k => if m = 2 then .ok [] else w3C8 m k) 1 3 ∧
    mainLoop decW ([goodRow] ++ badRow :: [goodRow]) =
      mainLoop decW ([goodRow] ++ [goodRow]) :=
  ⟨C8_per_block_and_per_record_isolation.1 "0xa" w3C8 1 3 2 "boom" rfl,
   C8_per_block_and_per_record_isolation.2 decW badRow "decode failure"
     [goodRow] [goodRow] rfl⟩

/-- C9: the blob-content fetch placeholder returns empty bytes for every
versioned hash and empty content is skipped, so every successful
`decode_batch` returns a batch whose `blobs` list is empty — no blob is
ever actually decoded. -/
theorem C9_decoded_blobs_always_empty (r : BatchRec) (d : DecodedBatch)
    (h : decode_batch r = .ok d) : d.blobs = [] := by
  rw [decode_batch_eq] at h
  split_ifs at h with hcond
  have hd := Except.ok.inj h
  rw [← hd]

/-- Witness for C9 at a concrete record carrying blob hashes. -/
theorem C9_decoded_blobs_always_empty_witness :
    decode_batch recOneBlob = Except.ok ⟨7, "hy", []⟩ ∧
      (⟨7, "hy", ([] : List DecodedBlob)⟩ : DecodedBatch).blobs = [] :=
  ⟨rfl, C9_decoded_blobs_always_empty recOneBlob ⟨7, "hy", []⟩ rfl⟩

/-- C10: `extract_l2_transactions` returns the empty list for every
decoded batch — the loop body is `pass`, so the accumulator is never
extended. -/
theorem C10_extract_l2_transactions_empty (decoded_batch : DecodedBatch) :
    extract_l2_transactions decoded_batch = [] := by
  unfold extract_l2_transactions
  exact foldl_keep _ _

end WorldCaseStudy
